import Mathlib

/-!
Verification of the page-filter synchronization engine of the JSAPIExample
repository.  The engine lives in the `usePageFilters` hook (channel registry,
message router, echo detector, reconciliation, broadcast emitter), with helper
predicates in `src/utils/functions.ts` and the two merge-policy variants of the
`setFilters` reducer in `src/redux/pageFiltersSlice.ts`.

TypeScript enums are strings at runtime, so enum-typed fields are embedded as
`String` together with named constants for the enum members; `undefined`-able
fields become `Option`; JavaScript arrays become `List`.  JavaScript objects
used as string-keyed accumulators are embedded as insertion-ordered association
lists (`objSet`), matching JS enumeration order for non-integer-like keys.
-/

namespace JSAPI

/-- Operand constants of the `PageFilterOperator` enum from `models` (runtime
string values of the TypeScript enum). -/
def PageFilterOperator.In : String := "IN"

def PageFilterOperator.NotIn : String := "NOT_IN"

def PageFilterOperator.Equals : String := "EQUALS"

def PageFilterOperator.NotEquals : String := "NOT_EQUALS"

/-- Canonical page filter, from the `PageFilter` type in `models`.  Optional
TypeScript fields are `Option`; enum-typed fields carry their runtime string
values. -/
structure PageFilter where
  source : Option String := none
  column : String
  columnType : String
  dataSourceId : Option String := none
  dataType : String
  filterType : Option String := none
  label : String
  operand : String
  values : List String
  isViewFilter : Option Bool := none
deriving DecidableEq, Repr

/-- The nested `column : { dataType: string }` object of an App Studio filter. -/
structure AppStudioColumn where
  dataType : String
deriving DecidableEq, Repr

/-- Inbound alternate filter shape, from the `AppStudioPageFilter` type in
`models`.  The `datasources` and `sourceCardURN` fields are never read by the
synchronization code and are omitted. -/
structure AppStudioPageFilter where
  column : AppStudioColumn
  columnId : String
  dataType : String
  filterType : Option String := none
  label : String
  operand : String
  values : List String
deriving DecidableEq, Repr

/-- Modelled from the spec: the `APP_STUDIO_TAG` constant is imported from
`constants/index`, a file not present among the provided sources.  The spec
(sections 3 and 9) says Tagged-class channels are identified by a suffix
convention on their identifier; we fix an opaque uppercase tag value.  No claim
below depends on the concrete value. -/
def APP_STUDIO_TAG : String := "APPSTUDIO"

/-- Embedding of `hasAppStudioTag` from `src/utils/functions.ts`:
`value.toUpperCase().endsWith(APP_STUDIO_TAG)`, expressed on the character
list (uppercase every character, then compare the suffix of the tag's
length) so that it evaluates inside the kernel. -/
def hasAppStudioTag (value : String) : Bool :=
  let u := value.data.map Char.toUpper
  let t := APP_STUDIO_TAG.data
  decide (t.length ≤ u.length) && u.drop (u.length - t.length) == t

/-- Embedding of `filtersAreEquals` from `src/utils/functions.ts`.  Note the
source uses `Array.prototype.some` over the current state, and
`findIndex(...) === -1` becomes `(List.findIdx? ...).isNone`.
`JSON.stringify` equality of two string arrays is exact list equality. -/
def filtersAreEquals (currentState : List PageFilter)
    (newState : List AppStudioPageFilter) : Bool :=
  if currentState.length == 0 && newState.length == 0 then
    true
  else if currentState.length == 0 && newState.length > 0 &&
      newState.foldl (fun acc f => acc + f.values.length) 0 == 0 then
    -- app studio sends filters without values
    true
  else if currentState.length != newState.length then
    false
  else
    currentState.any fun c =>
      (newState.findIdx? fun nf =>
        nf.columnId == c.column &&
          (nf.operand != c.operand || nf.values != c.values)).isNone

/-- JavaScript string-keyed object assignment `acc[k] = v`, on an
insertion-ordered association list: an existing key keeps its position and its
value is overwritten, a new key is appended. -/
def objSet {β : Type} (acc : List (String × β)) (k : String) (v : β) :
    List (String × β) :=
  match acc with
  | [] => [(k, v)]
  | (k', v') :: rest =>
      if k' == k then (k, v) :: rest else (k', v') :: objSet rest k v

/-- Grouping reducer pattern `list.reduce((acc, a) => { acc[key a] = val a;
return acc; }, {})` followed by nothing: the raw keyed accumulator. -/
def groupByKeyLast {α β : Type} (key : α → String) (val : α → β)
    (l : List α) : List (String × β) :=
  l.foldl (fun acc a => objSet acc (key a) (val a)) []

/-- Translation of one `AppStudioPageFilter` into canonical `PageFilter` form,
as built inline in the `/v1/onFiltersChange` handler: `column` is mapped from
`columnId`, `columnType` from `column.dataType`, and `source` is attached only
when the originating channel is not App Studio tagged. -/
def toPageFilter (referenceId : String) (value : AppStudioPageFilter) :
    PageFilter :=
  { source := if hasAppStudioTag referenceId == false then some referenceId
      else none
    column := value.columnId
    columnType := value.column.dataType
    dataType := value.dataType
    filterType := value.filterType
    label := value.label
    operand := value.operand
    values := value.values }

/-- Per-element entry of the `/v1/onFiltersChange` grouping reducer: the
stored filter is looked up by column; if it is missing or differs (per
`filtersAreEquals` on the two singletons) the element is translated, otherwise
the stored filter is kept. -/
def changeEntry (referenceId : String) (current : List PageFilter)
    (value : AppStudioPageFilter) : PageFilter :=
  match current.find? fun f => f.column == value.columnId with
  | some f =>
      if filtersAreEquals [f] [value] == false then
        toPageFilter referenceId value
      else f
  | none => toPageFilter referenceId value

/-- Reconciliation path of the `/v1/onFiltersChange` handler (after the
Tagged-class and `Array.isArray` guards): `none` means the event was discarded
as an echo; otherwise the working filter set handed to `notifyClients`. -/
def reconcileFiltersChange (referenceId : String) (current : List PageFilter)
    (inFilters : List AppStudioPageFilter) : Option (List PageFilter) :=
  -- Discard echo events
  if filtersAreEquals current
      (inFilters.filter fun f => f.values.length > 0) == true then
    none
  else
    let outFilters :=
      (groupByKeyLast (fun v => v.columnId) (changeEntry referenceId current)
        inFilters).map Prod.snd
    some (outFilters ++
      (current.filter fun f =>
        (outFilters.findIdx? fun v => v.column == f.column).isNone).map
        fun f => { f with values := [] })

/-- Per-element transformation of the `/v1/onDrill` grouping reducer:
`dataSourceId` is destructured away, `source` is attached when the channel is
not App Studio tagged, and `operand` is forced to `IN`. -/
def drillTransform (referenceId : String) (value : PageFilter) : PageFilter :=
  { value with
    dataSourceId := none
    source := if hasAppStudioTag referenceId == false then some referenceId
      else value.source
    operand := PageFilterOperator.In }

/-- Reconciliation path of the `/v1/onDrill` handler (after the class and
`Array.isArray` guards): group by `column`, last write wins, transform each
element. -/
def reconcileDrill (referenceId : String) (inFilters : List PageFilter) :
    List PageFilter :=
  (groupByKeyLast (fun v => v.column) (drillTransform referenceId)
    inFilters).map Prod.snd

/-- Registered channel entry: an id and its message port (ports are opaque and
numbered). -/
structure Channel where
  id : String
  messagePort : Nat
deriving DecidableEq, Repr

/-- Embedding of `registerChannel`: `setChannels(current => ({ ...current,
[id]: { id, messagePort } }))`, i.e. keyed object assignment. -/
def registerChannel (channels : List (String × Channel)) (id : String)
    (messagePort : Nat) : List (String × Channel) :=
  objSet channels id { id := id, messagePort := messagePort }

/-- Outbound wire envelope posted by the broadcast emitter. -/
structure OutboundEnvelope where
  id : String
  jsonrpc : String
  method : String
  filters : List PageFilter
deriving DecidableEq, Repr

/-- Payload of one broadcast: `currentFilters.filter(v => v.source !==
channel.id)` (an absent `source` compares unequal to any id, so such filters
are always included). -/
def broadcastPayload (currentFilters : List PageFilter) (channelId : String) :
    List PageFilter :=
  currentFilters.filter fun v => v.source != some channelId

/-- The envelope posted to one channel by the broadcast effect. -/
def broadcastEnvelope (currentFilters : List PageFilter)
    (channelId : String) : OutboundEnvelope :=
  { id := "setFilters"
    jsonrpc := "2.0"
    method := "/v1/filters/apply"
    filters := broadcastPayload currentFilters channelId }

/-- One broadcast cycle (the `useEffect` over `[currentFilters, channels]`):
for every registered channel, the envelope posted to its transport, paired
with the recipient channel's id. -/
def broadcastCycle (currentFilters : List PageFilter)
    (channels : List (String × Channel)) : List (String × OutboundEnvelope) :=
  channels.map fun ch => (ch.2.id, broadcastEnvelope currentFilters ch.2.id)

/-- Runtime value of the `params.filters` field of an inbound envelope, at the
granularity the TypeScript casts assume: an array of App-Studio-shaped
filters, an array of canonical-shaped (drill) filters, or a present value that
is not an array.  An array of the other method's shape lies outside the
TypeScript casts `as AppStudioPageFilter[]` / `PageFilter[]` and is not
processed further by the model. -/
inductive FiltersField where
  | appStudio (filters : List AppStudioPageFilter)
  | drill (filters : List PageFilter)
  | notArray
deriving DecidableEq, Repr

/-- The `params` object of an inbound envelope; a missing `filters` key is
`none` (and `Array.isArray(undefined)` is `false`, like for `notArray`). -/
structure MessageParams where
  filters : Option FiltersField := none
deriving DecidableEq, Repr

/-- Inbound wire envelope as read by `onPortMessage`: `method` and `params`
may each be absent. -/
structure InboundEnvelope where
  method : Option String := none
  params : Option MessageParams := none
deriving DecidableEq, Repr

/-- Observable outcome of one `onPortMessage` invocation: the channel registry
afterwards, the `notifyClients` notification issued (if any), and whether an
uncaught JavaScript `TypeError` escaped the handler (reading
`data.params['filters']` when `params` is absent). -/
structure HandlerResult where
  channels : List (String × Channel)
  notification : Option (String × List PageFilter)
  threw : Bool
deriving DecidableEq, Repr

/-- Envelope carrying a well-shaped `/v1/onFiltersChange` batch. -/
def filtersChangeEnvelope (inFilters : List AppStudioPageFilter) :
    InboundEnvelope :=
  { method := some "/v1/onFiltersChange"
    params := some { filters := some (.appStudio inFilters) } }

/-- Envelope carrying a well-shaped `/v1/onDrill` batch. -/
def drillEnvelope (inFilters : List PageFilter) : InboundEnvelope :=
  { method := some "/v1/onDrill"
    params := some { filters := some (.drill inFilters) } }

/-- Embedding of the per-port message handler `onPortMessage` of
`usePageFilters`.  `referenceId` is the identifier captured at connection
time, `current` is `ref.current` (the canonical filter store as seen by the
hook) and `channels` the registry.  `recordMessage` logging is not an engine
state change and is not modelled. -/
def onPortMessage (referenceId : String) (channels : List (String × Channel))
    (portNum : Nat) (current : List PageFilter) (data : InboundEnvelope) :
    HandlerResult :=
  match data.method with
  | none => ⟨channels, none, false⟩
  | some m =>
    if m == "/v1/onFrameSizeChange" then
      -- log only
      ⟨channels, none, false⟩
    else if m == "/v1/onAppReady" then
      ⟨registerChannel channels referenceId portNum, none, false⟩
    else if m == "/v1/onFiltersChange" then
      if hasAppStudioTag referenceId == false then
        -- Ignoring standard card event for Filters Change.
        ⟨channels, none, false⟩
      else
        match data.params with
        | none => ⟨channels, none, true⟩
        | some p =>
          match p.filters with
          | some (.appStudio inFilters) =>
            match reconcileFiltersChange referenceId current inFilters with
            | none => ⟨channels, none, false⟩
            | some out => ⟨channels, some (referenceId, out), false⟩
          | _ => ⟨channels, none, false⟩
    else if m == "/v1/onDrill" then
      if hasAppStudioTag referenceId == true then
        -- Ignoring App Studio event for Drill.
        ⟨channels, none, false⟩
      else
        match data.params with
        | none => ⟨channels, none, true⟩
        | some p =>
          match p.filters with
          | some (.drill inFilters) =>
            ⟨channels, some (referenceId, reconcileDrill referenceId inFilters),
              false⟩
          | _ => ⟨channels, none, false⟩
    else
      -- Unhandled Port Event method: log only
      ⟨channels, none, false⟩

/-- Outcome of the window `message` connection handler: the registry
afterwards, and the allocated reference id with the port whose message handler
was attached and whose transport was started (`none` when the event carried no
port and the handler returned immediately). -/
structure ConnectResult where
  channels : List (String × Channel)
  attached : Option (String × Nat)
deriving DecidableEq, Repr

/-- Embedding of the connection-accept `handler` of `usePageFilters`:
`connectionEvent.ports[0] === undefined` aborts; otherwise a handler is
attached, the port started, and non-Tagged channels are registered at once
(App Studio apps wait for `/v1/onAppReady`). -/
def handleConnection (channels : List (String × Channel))
    (referenceId : String) (port0 : Option Nat) : ConnectResult :=
  match port0 with
  | none => ⟨channels, none⟩
  | some p =>
      ⟨if hasAppStudioTag referenceId == false then
          registerChannel channels referenceId p
        else channels,
        some (referenceId, p)⟩

/-- External events driving the engine: a window connection event (with the
reference id freshly allocated for it and the first transferred port, if any)
or a message delivered on the port belonging to a previously allocated
reference id. -/
inductive EngineEvent where
  | connect (referenceId : String) (port0 : Option Nat)
  | portMessage (referenceId : String) (portNum : Nat) (data : InboundEnvelope)
deriving DecidableEq, Repr

/-- Engine state: the channel registry and the canonical filter store held by
the hook. -/
structure EngineState where
  channels : List (String × Channel)
  currentFilters : List PageFilter
deriving DecidableEq, Repr

/-- Initial engine state: no channels, no filters. -/
def initialState : EngineState := ⟨[], []⟩

/-- One engine step.  `merge` is the downstream store-merge policy applied by
the app collaborator when `notifyClients` fires (the reconciled set is
dispatched to the redux `setFilters` reducer and flows back into
`currentFilters`); the registry dynamics do not depend on it. -/
def stepWith (merge : List PageFilter → List PageFilter → List PageFilter)
    (st : EngineState) : EngineEvent → EngineState
  | .connect referenceId port0 =>
      { st with
        channels := (handleConnection st.channels referenceId port0).channels }
  | .portMessage referenceId portNum data =>
      let r := onPortMessage referenceId st.channels portNum st.currentFilters
        data
      match r.notification with
      | none => { st with channels := r.channels }
      | some (_, filters) =>
          { channels := r.channels
            currentFilters := merge st.currentFilters filters }

/-- Engine state reached from the initial state by a trace of events. -/
def runWith (merge : List PageFilter → List PageFilter → List PageFilter)
    (events : List EngineEvent) : EngineState :=
  events.foldl (stepWith merge) initialState

/-- An `/v1/onAppReady` envelope was handled on the port of the given
reference id somewhere in the trace. -/
def sentAppReady (referenceId : String) (events : List EngineEvent) : Prop :=
  ∃ portNum data, EngineEvent.portMessage referenceId portNum data ∈ events ∧
    data.method = some "/v1/onAppReady"

/-- Coherence of the registry representation: every entry is keyed by the id
of the channel it holds (true by construction of `registerChannel`). -/
def registryCoherent (channels : List (String × Channel)) : Prop :=
  ∀ p ∈ channels, (p.2 : Channel).id = p.1

/-- Value toggling of the toggle-merge `setFilters` reducer
(`pageFiltersSlice`, first variant): for each incoming value, `indexOf` finds
the first occurrence in the existing values; present values are spliced out,
absent ones pushed. -/
def toggleValues (existing incoming : List String) : List String :=
  incoming.foldl
    (fun vs value => if vs.contains value then vs.erase value else vs ++ [value])
    existing

/-- Replacement of the `values` of the first filter with the given column,
modelling the in-place mutation of the filter object returned by
`state.filters.find`. -/
def updateValuesFirst (filters : List PageFilter) (column : String)
    (vals : List String) : List PageFilter :=
  match filters with
  | [] => []
  | f :: rest =>
      if f.column == column then { f with values := vals } :: rest
      else f :: updateValuesFirst rest column vals

/-- One `forEach` iteration of the toggle-merge `setFilters` reducer: toggle
into an existing filter (removing the filter when its values empty out) or
push a new one. -/
def toggleStep (st : List PageFilter) (newFilter : PageFilter) :
    List PageFilter :=
  match st.find? fun f => f.column == newFilter.column with
  | some existingFilter =>
      let newVals := toggleValues existingFilter.values newFilter.values
      let st' := updateValuesFirst st newFilter.column newVals
      if newVals.length == 0 then
        st'.filter fun f => f.column != newFilter.column
      else st'
  | none => st ++ [newFilter]

/-- Toggle-merge variant of the `setFilters` reducer
(`src/redux/pageFiltersSlice.ts`, lines 16-59): with `forceNew` the payload's
columns are cleared first, then each payload filter is toggled in. -/
def setFiltersToggle (stateFilters : List PageFilter)
    (payload : List PageFilter) (forceNew : Bool) : List PageFilter :=
  let start :=
    if forceNew == true then
      let columnsToClear := payload.map fun filter => filter.column
      stateFilters.filter fun filter => !columnsToClear.contains filter.column
    else stateFilters
  payload.foldl toggleStep start

/-- One insertion into a JS `Set` viewed as its insertion-ordered element
list: already-present values are ignored, new values appended. -/
def dedupeStep (acc : List String) (v : String) : List String :=
  if acc.contains v then acc else acc ++ [v]

/-- First-occurrence deduplication, as performed by
`Array.from(new Set([...a, ...b]))` (JS `Set` preserves insertion order). -/
def dedupe (l : List String) : List String :=
  l.foldl dedupeStep []

/-- One `forEach` iteration of the union-merge `setFilters` reducer: combine
and deduplicate values of an existing filter, or push a new one. -/
def unionStep (st : List PageFilter) (newFilter : PageFilter) :
    List PageFilter :=
  match st.find? fun f => f.column == newFilter.column with
  | some existingFilter =>
      updateValuesFirst st newFilter.column
        (dedupe (existingFilter.values ++ newFilter.values))
  | none => st ++ [newFilter]

/-- Union-merge variant of the `setFilters` reducer
(`src/redux/pageFiltersSlice.ts`, lines 83-99). -/
def setFiltersUnion (stateFilters payload : List PageFilter) :
    List PageFilter :=
  payload.foldl unionStep stateFilters

/-- The Filter Store invariant stated by the spec: at most one filter per
distinct column, and no filter with an empty `values` sequence is present. -/
def storeInvariant (filters : List PageFilter) : Prop :=
  (filters.map fun f => f.column).Nodup ∧ ∀ f ∈ filters, f.values ≠ []

instance (filters : List PageFilter) : Decidable (storeInvariant filters) := by
  unfold storeInvariant; infer_instance

/-- The echo condition as the claim words it: the subset of the batch whose
values are non-empty equals the canonical store restricted to that subset's
columns, comparing filters only on `operand` and the exact ordered contents of
`values`. -/
def claimEcho (current : List PageFilter)
    (inFilters : List AppStudioPageFilter) : Prop :=
  let surviving := inFilters.filter fun f => f.values.length > 0
  (∀ b ∈ surviving, ∃ f ∈ current,
    f.column = b.columnId ∧ f.operand = b.operand ∧ f.values = b.values) ∧
  (∀ f ∈ current, (∃ b ∈ surviving, b.columnId = f.column) →
    ∃ b ∈ surviving,
      b.columnId = f.column ∧ f.operand = b.operand ∧ f.values = b.values)

instance (current : List PageFilter) (inFilters : List AppStudioPageFilter) :
    Decidable (claimEcho current inFilters) := by
  unfold claimEcho; infer_instance

/-- A batch element differs from its canonical counterpart (or has none), the
counterpart being the first stored filter on the element's column, compared on
`operand` and the exact ordered `values`. -/
def differsFromCounterpart (current : List PageFilter)
    (b : AppStudioPageFilter) : Bool :=
  match current.find? fun f => f.column == b.columnId with
  | some f => !(f.operand == b.operand && f.values == b.values)
  | none => true

/-- Membership in the working set as the claim words it: translations of the
batch elements that differ from their canonical counterpart (or have none),
plus the stored filters on columns absent from the batch, carried forward
with `values` emptied. -/
def claimWorkingSetMem (referenceId : String) (current : List PageFilter)
    (inFilters : List AppStudioPageFilter) (g : PageFilter) : Prop :=
  (∃ b ∈ inFilters, differsFromCounterpart current b = true ∧
    g = toPageFilter referenceId b) ∨
  (∃ f ∈ current, f.column ∉ inFilters.map (fun b => b.columnId) ∧
    g = { f with values := [] })

instance (referenceId : String) (current : List PageFilter)
    (inFilters : List AppStudioPageFilter) (g : PageFilter) :
    Decidable (claimWorkingSetMem referenceId current inFilters g) := by
  unfold claimWorkingSetMem; infer_instance

/-- The working set of the filter-change path as the amended claim words it:
one entry per distinct batch column in first-occurrence order — built from
the last batch element with that column, translated when it differs from its
stored counterpart on `operand` or the exact ordered `values` (or has no
counterpart), and otherwise the stored counterpart carried unchanged —
followed by every stored filter whose column the batch does not mention,
carried forward with `values` emptied. -/
def specWorkingSet (referenceId : String) (current : List PageFilter)
    (inFilters : List AppStudioPageFilter) : List PageFilter :=
  (dedupe (inFilters.map fun b => b.columnId)).filterMap (fun c =>
    (inFilters.reverse.find? fun b => b.columnId == c).map fun b =>
      match current.find? fun f => f.column == b.columnId with
      | some f =>
          if f.operand = b.operand ∧ f.values = b.values then f
          else toPageFilter referenceId b
      | none => toPageFilter referenceId b) ++
  (current.filter fun f =>
    !(inFilters.map fun b => b.columnId).contains f.column).map
    fun f => { f with values := [] }

/-- The drill result set as the claim words it: one filter per distinct batch
column in first-occurrence order, taken from the last batch element with that
column, with `operand` forced to `IN`, `source` tagged and `dataSourceId`
dropped. -/
def specDrillSet (referenceId : String) (inFilters : List PageFilter) :
    List PageFilter :=
  (dedupe (inFilters.map fun v => v.column)).filterMap fun c =>
    (inFilters.reverse.find? fun v => v.column == c).map
      (drillTransform referenceId)

/-- Lookup of a key in a string-keyed association list (the value JS would
read back with `acc[c]`). -/
def lookupKey {β : Type} (acc : List (String × β)) (c : String) : Option β :=
  (acc.find? fun p => p.1 == c).map Prod.snd

/-- Concrete canonical filter on column `A` (operand `IN`, values `["x"]`),
attributed to a standard channel. -/
def filterA : PageFilter :=
  { source := some "chan-7"
    column := "A"
    columnType := "STRING"
    dataType := "string"
    label := "Alpha"
    operand := PageFilterOperator.In
    values := ["x"] }

/-- Concrete canonical filter on column `B` (operand `IN`, values `["y"]`). -/
def filterB : PageFilter :=
  { column := "B"
    columnType := "STRING"
    dataType := "string"
    label := "Beta"
    operand := PageFilterOperator.In
    values := ["y"] }

/-- Inbound App Studio filter on column `A` matching `filterA` on operand and
values. -/
def batchA : AppStudioPageFilter :=
  { column := ⟨"STRING"⟩
    columnId := "A"
    dataType := "string"
    label := "alpha"
    operand := PageFilterOperator.In
    values := ["x"] }

/-- Inbound App Studio filter on column `B` whose values differ from
`filterB`. -/
def batchBChanged : AppStudioPageFilter :=
  { column := ⟨"STRING"⟩
    columnId := "B"
    dataType := "string"
    label := "Beta"
    operand := PageFilterOperator.In
    values := ["z"] }

/-- Inbound App Studio filter on a column `C` not present in the store. -/
def batchC : AppStudioPageFilter :=
  { column := ⟨"STRING"⟩
    columnId := "C"
    dataType := "string"
    label := "Gamma"
    operand := PageFilterOperator.In
    values := ["z"] }

/-- Concrete page filter with an empty `values` sequence. -/
def emptyValuesFilter : PageFilter :=
  { column := "Talent_Class"
    columnType := "STRING"
    dataType := "string"
    label := "Talent Class"
    operand := PageFilterOperator.In
    values := [] }

/-- An App-Studio-tagged channel identifier. -/
def taggedId : String := "card-AppStudio"

/-- Concrete registered channel with id `chan-7`. -/
def chan7 : Channel := { id := "chan-7", messagePort := 0 }

/-- Concrete drill filter with a non-`IN` operand. -/
def drillRegion : PageFilter :=
  { column := "Region"
    columnType := "STRING"
    dataType := "string"
    label := "Region"
    operand := PageFilterOperator.Equals
    values := ["US"] }

/-! Association-list lemmas about `objSet`, `lookupKey`, `dedupe` and the
grouping reducer `groupByKeyLast`. -/

theorem objSet_keys {β : Type} (acc : List (String × β)) (k : String) (v : β) :
    (objSet acc k v).map Prod.fst =
      if (acc.map Prod.fst).contains k then acc.map Prod.fst
      else acc.map Prod.fst ++ [k] := by
  induction acc with
  | nil => simp [objSet]
  | cons p rest ih =>
    obtain ⟨k', v'⟩ := p
    by_cases hk : k' = k
    · subst hk
      simp [objSet, List.contains_cons]
    · have hb : (k' == k) = false := beq_eq_false_iff_ne.mpr hk
      have hb' : (k == k') = false := beq_eq_false_iff_ne.mpr (Ne.symm hk)
      simp only [objSet, hb, Bool.false_eq_true, if_neg, not_false_iff,
        List.map_cons, ih, List.contains_cons, hb', Bool.false_or]
      by_cases hc : (rest.map Prod.fst).contains k
      · simp only [hc, if_pos]
      · simp only [hc, Bool.false_eq_true, if_neg, not_false_iff,
          List.cons_append]

theorem mem_objSet {β : Type} (p : String × β) (acc : List (String × β))
    (k : String) (v : β) (h : p ∈ objSet acc k v) : p ∈ acc ∨ p = (k, v) := by
  induction acc with
  | nil =>
    simp only [objSet, List.mem_singleton] at h
    exact Or.inr h
  | cons q rest ih =>
    obtain ⟨k', v'⟩ := q
    by_cases hk : k' = k
    · subst hk
      simp only [objSet, beq_self_eq_true, if_pos, List.mem_cons] at h
      rcases h with h | h
      · exact Or.inr h
      · exact Or.inl (List.mem_cons_of_mem _ h)
    · have hb : (k' == k) = false := beq_eq_false_iff_ne.mpr hk
      simp only [objSet, hb, Bool.false_eq_true, if_neg, not_false_iff,
        List.mem_cons] at h
      rcases h with h | h
      · exact Or.inl (h ▸ List.mem_cons_self _ _)
      · rcases ih h with h' | h'
        · exact Or.inl (List.mem_cons_of_mem _ h')
        · exact Or.inr h'

theorem lookupKey_objSet_self {β : Type} (acc : List (String × β)) (k : String)
    (v : β) : lookupKey (objSet acc k v) k = some v := by
  induction acc with
  | nil => simp [objSet, lookupKey, List.find?]
  | cons p rest ih =>
    obtain ⟨k', v'⟩ := p
    by_cases hk : k' = k
    · subst hk
      simp [objSet, lookupKey, List.find?]
    · have hb : (k' == k) = false := beq_eq_false_iff_ne.mpr hk
      simp only [objSet, hb, Bool.false_eq_true, if_neg, not_false_iff]
      simpa [lookupKey, List.find?_cons, hb] using ih

theorem lookupKey_objSet_ne {β : Type} (acc : List (String × β)) (k c : String)
    (v : β) (h : c ≠ k) : lookupKey (objSet acc k v) c = lookupKey acc c := by
  have hkc : (k == c) = false := beq_eq_false_iff_ne.mpr (Ne.symm h)
  induction acc with
  | nil => simp [objSet, lookupKey, List.find?, hkc]
  | cons p rest ih =>
    obtain ⟨k', v'⟩ := p
    by_cases hk : k' = k
    · subst hk
      simp [objSet, lookupKey, List.find?_cons, hkc]
    · have hb : (k' == k) = false := beq_eq_false_iff_ne.mpr hk
      simp only [objSet, hb, Bool.false_eq_true, if_neg, not_false_iff]
      by_cases hc : k' = c
      · subst hc
        simp [lookupKey, List.find?_cons]
      · have hb' : (k' == c) = false := beq_eq_false_iff_ne.mpr hc
        simpa [lookupKey, List.find?_cons, hb'] using ih

theorem objSet_keys_nodup {β : Type} (acc : List (String × β)) (k : String)
    (v : β) (h : (acc.map Prod.fst).Nodup) :
    ((objSet acc k v).map Prod.fst).Nodup := by
  rw [objSet_keys]
  by_cases hc : (acc.map Prod.fst).contains k
  · rw [if_pos hc]; exact h
  · rw [if_neg hc]
    have hk : k ∉ acc.map Prod.fst := by simpa using hc
    simp [List.nodup_append, h, hk]

theorem mem_dedupeStep (acc : List String) (a x : String) :
    x ∈ dedupeStep acc a ↔ x ∈ acc ∨ x = a := by
  unfold dedupeStep
  by_cases hc : acc.contains a
  · rw [if_pos hc]
    have ha : a ∈ acc := by simpa using hc
    constructor
    · exact Or.inl
    · rintro (h | rfl)
      · exact h
      · exact ha
  · rw [if_neg hc]
    simp

theorem dedupeStep_nodup (acc : List String) (a : String) (h : acc.Nodup) :
    (dedupeStep acc a).Nodup := by
  unfold dedupeStep
  by_cases hc : acc.contains a
  · rw [if_pos hc]; exact h
  · rw [if_neg hc]
    have ha : a ∉ acc := by simpa using hc
    simp [List.nodup_append, h, ha]

theorem mem_dedupe_foldl (l : List String) (acc : List String) (x : String) :
    x ∈ l.foldl dedupeStep acc ↔ x ∈ acc ∨ x ∈ l := by
  induction l generalizing acc with
  | nil => simp
  | cons a t ih =>
    rw [List.foldl_cons, ih, mem_dedupeStep]
    simp only [List.mem_cons]
    tauto

theorem mem_dedupe (l : List String) (x : String) :
    x ∈ dedupe l ↔ x ∈ l := by
  unfold dedupe
  rw [mem_dedupe_foldl]
  simp

theorem dedupe_foldl_nodup (l : List String) (acc : List String)
    (h : acc.Nodup) : (l.foldl dedupeStep acc).Nodup := by
  induction l generalizing acc with
  | nil => simpa
  | cons a t ih =>
    rw [List.foldl_cons]
    exact ih _ (dedupeStep_nodup acc a h)

theorem dedupe_nodup (l : List String) : (dedupe l).Nodup :=
  dedupe_foldl_nodup l [] List.nodup_nil

theorem dedupe_append (l : List String) (x : String) :
    dedupe (l ++ [x]) =
      if (dedupe l).contains x then dedupe l else dedupe l ++ [x] := by
  unfold dedupe
  rw [List.foldl_append]
  rfl

theorem groupByKeyLast_append {α β : Type} (key : α → String) (val : α → β)
    (l : List α) (a : α) :
    groupByKeyLast key val (l ++ [a]) =
      objSet (groupByKeyLast key val l) (key a) (val a) := by
  unfold groupByKeyLast
  rw [List.foldl_append]
  rfl

theorem groupByKeyLast_keys {α β : Type} (key : α → String) (val : α → β)
    (l : List α) :
    (groupByKeyLast key val l).map Prod.fst = dedupe (l.map key) := by
  induction l using List.reverseRecOn with
  | nil => simp [groupByKeyLast, dedupe]
  | append_singleton l a ih =>
    rw [groupByKeyLast_append, objSet_keys, ih, List.map_append]
    simp [dedupe_append]

theorem groupByKeyLast_lookup {α β : Type} (key : α → String) (val : α → β)
    (l : List α) (c : String) :
    lookupKey (groupByKeyLast key val l) c =
      (l.reverse.find? fun a => key a == c).map val := by
  induction l using List.reverseRecOn with
  | nil => simp [groupByKeyLast, lookupKey, List.find?]
  | append_singleton l a ih =>
    rw [groupByKeyLast_append, List.reverse_append]
    by_cases hc : c = key a
    · subst hc
      rw [lookupKey_objSet_self]
      simp [List.find?_cons]
    · rw [lookupKey_objSet_ne _ _ _ _ hc]
      have hb : (key a == c) = false := beq_eq_false_iff_ne.mpr
        fun h => hc h.symm
      simp [List.find?_cons, hb, ih]

theorem alist_eq_keys_filterMap {β : Type} (A : List (String × β))
    (h : (A.map Prod.fst).Nodup) :
    A = (A.map Prod.fst).filterMap fun c =>
      (lookupKey A c).map fun v => (c, v) := by
  induction A with
  | nil => simp
  | cons p rest ih =>
    obtain ⟨k, v⟩ := p
    simp only [List.map_cons, List.nodup_cons] at h
    obtain ⟨hk, hrest⟩ := h
    have hself : lookupKey ((k, v) :: rest) k = some v := by
      simp [lookupKey, List.find?_cons]
    rw [List.map_cons, List.filterMap_cons, hself]
    simp only
    congr 1
    have hcongr : (rest.map Prod.fst).filterMap
        (fun c => (lookupKey ((k, v) :: rest) c).map fun w => (c, w)) =
        (rest.map Prod.fst).filterMap
        (fun c => (lookupKey rest c).map fun w => (c, w)) := by
      apply List.filterMap_congr
      intro c hc
      have hne : (k == c) = false := beq_eq_false_iff_ne.mpr
        fun h' => hk (h' ▸ hc)
      simp [lookupKey, List.find?_cons, hne]
    rw [hcongr, ← ih hrest]

theorem groupByKeyLast_eq {α β : Type} (key : α → String) (val : α → β)
    (l : List α) :
    groupByKeyLast key val l = (dedupe (l.map key)).filterMap fun c =>
      (l.reverse.find? fun a => key a == c).map fun a => (c, val a) := by
  have hnd : ((groupByKeyLast key val l).map Prod.fst).Nodup := by
    rw [groupByKeyLast_keys]; exact dedupe_nodup _
  have h := alist_eq_keys_filterMap (groupByKeyLast key val l) hnd
  rw [groupByKeyLast_keys] at h
  rw [h]
  apply List.filterMap_congr
  intro c _
  rw [groupByKeyLast_lookup]
  rw [Option.map_map]
  rfl

theorem groupByKeyLast_values {α β : Type} (key : α → String) (val : α → β)
    (l : List α) :
    (groupByKeyLast key val l).map Prod.snd =
      (dedupe (l.map key)).filterMap fun c =>
        (l.reverse.find? fun a => key a == c).map val := by
  rw [groupByKeyLast_eq, List.map_filterMap]
  apply List.filterMap_congr
  intro c _
  rw [Option.map_map]
  rfl

/-! Characterization of the filter-change and drill reconciliation paths. -/

theorem filtersAreEquals_singleton (f : PageFilter) (b : AppStudioPageFilter)
    (h : f.column = b.columnId) :
    filtersAreEquals [f] [b] = true ↔
      f.operand = b.operand ∧ f.values = b.values := by
  have hb : (b.columnId == f.column) = true := by simp [h]
  simp only [filtersAreEquals, List.length_cons, List.length_nil,
    List.any_cons, List.any_nil, List.findIdx?_cons, List.findIdx?_nil, hb]
  by_cases h1 : f.operand = b.operand
  · by_cases h2 : f.values = b.values
    · simp [h1, h2]
    · have : (b.values != f.values) = true := by
        simpa using fun h' => h2 h'.symm
      simp [h1, h2, this]
  · have : (b.operand != f.operand) = true := by
      simpa using fun h' => h1 h'.symm
    simp [h1, this]

theorem changeEntry_eq_spec (referenceId : String) (current : List PageFilter)
    (b : AppStudioPageFilter) :
    changeEntry referenceId current b =
      match current.find? fun f => f.column == b.columnId with
      | some f =>
          if f.operand = b.operand ∧ f.values = b.values then f
          else toPageFilter referenceId b
      | none => toPageFilter referenceId b := by
  unfold changeEntry
  cases hfind : current.find? fun f => f.column == b.columnId with
  | none => rfl
  | some f =>
    have hcol : f.column = b.columnId := by
      simpa using List.find?_some hfind
    by_cases hmatch : f.operand = b.operand ∧ f.values = b.values
    · have htrue : filtersAreEquals [f] [b] = true :=
        (filtersAreEquals_singleton f b hcol).mpr hmatch
      simp [htrue, hmatch]
    · have hfalse : filtersAreEquals [f] [b] = false := by
        rcases Bool.eq_false_or_eq_true (filtersAreEquals [f] [b]) with h | h
        · exact absurd ((filtersAreEquals_singleton f b hcol).mp h) hmatch
        · exact h
      simp [hfalse, hmatch]

theorem changeEntry_column (referenceId : String) (current : List PageFilter)
    (b : AppStudioPageFilter) :
    (changeEntry referenceId current b).column = b.columnId := by
  unfold changeEntry
  cases hfind : current.find? fun f => f.column == b.columnId with
  | none => rfl
  | some f =>
    have hcol : f.column = b.columnId := by
      simpa using List.find?_some hfind
    by_cases hb : filtersAreEquals [f] [b] = false
    · simp [hb, toPageFilter]
    · have htrue : filtersAreEquals [f] [b] = true := by
        rcases Bool.eq_false_or_eq_true (filtersAreEquals [f] [b]) with h' | h'
        · exact h'
        · exact absurd h' hb
      simp [htrue, hcol]

theorem grouped_change_values (referenceId : String)
    (current : List PageFilter) (inFilters : List AppStudioPageFilter) :
    (groupByKeyLast (fun v => v.columnId) (changeEntry referenceId current)
      inFilters).map Prod.snd =
      (dedupe (inFilters.map fun b => b.columnId)).filterMap fun c =>
        (inFilters.reverse.find? fun b => b.columnId == c).map
          (changeEntry referenceId current) :=
  groupByKeyLast_values _ _ _

theorem mem_grouped_change_column (referenceId : String)
    (current : List PageFilter) (inFilters : List AppStudioPageFilter)
    (x : String) :
    (∃ g ∈ (groupByKeyLast (fun v => v.columnId)
        (changeEntry referenceId current) inFilters).map Prod.snd,
      g.column = x) ↔
      x ∈ inFilters.map fun b => b.columnId := by
  rw [grouped_change_values]
  constructor
  · rintro ⟨g, hg, rfl⟩
    rw [List.mem_filterMap] at hg
    obtain ⟨c, hc, hsome⟩ := hg
    rw [Option.map_eq_some'] at hsome
    obtain ⟨b, hfind, rfl⟩ := hsome
    have hb : b.columnId = c := by
      simpa using List.find?_some hfind
    rw [changeEntry_column, hb]
    exact (mem_dedupe _ _).mp hc
  · intro hx
    have hsome : (inFilters.reverse.find? fun b => b.columnId == x).isSome := by
      rw [List.find?_isSome]
      rw [List.mem_map] at hx
      obtain ⟨b, hb, rfl⟩ := hx
      exact ⟨b, List.mem_reverse.mpr hb, by simp⟩
    obtain ⟨b, hfind⟩ := Option.isSome_iff_exists.mp hsome
    refine ⟨changeEntry referenceId current b, ?_, ?_⟩
    · rw [List.mem_filterMap]
      exact ⟨x, (mem_dedupe _ _).mpr hx, by rw [hfind]; rfl⟩
    · have hb : b.columnId = x := by
        simpa using List.find?_some hfind
      rw [changeEntry_column, hb]

theorem reconcileFiltersChange_eq (referenceId : String)
    (current : List PageFilter) (inFilters : List AppStudioPageFilter)
    (h : filtersAreEquals current
      (inFilters.filter fun f => f.values.length > 0) = false) :
    reconcileFiltersChange referenceId current inFilters =
      some (specWorkingSet referenceId current inFilters) := by
  have hcond : ¬ ((filtersAreEquals current
      (inFilters.filter fun f => f.values.length > 0) == true) = true) := by
    rw [h]; simp
  unfold reconcileFiltersChange specWorkingSet
  rw [if_neg hcond]
  refine congrArg some ?_
  congr 1
  · rw [grouped_change_values]
    apply List.filterMap_congr
    intro c _
    cases hfind : inFilters.reverse.find? fun b => b.columnId == c with
    | none => rfl
    | some b =>
      rw [Option.map_some', Option.map_some', changeEntry_eq_spec]
  · congr 1
    apply List.filter_congr
    intro f _
    by_cases hx : f.column ∈ inFilters.map fun b => b.columnId
    · obtain ⟨g, hg, hgc⟩ := (mem_grouped_change_column referenceId current
        inFilters f.column).mpr hx
      have h2 : ((inFilters.map fun b => b.columnId).contains f.column)
          = true := by simpa using hx
      have h1 : (((groupByKeyLast (fun v => v.columnId)
          (changeEntry referenceId current) inFilters).map Prod.snd).findIdx?
          (fun v => v.column == f.column)).isNone = false := by
        cases hidx : ((groupByKeyLast (fun v => v.columnId)
            (changeEntry referenceId current) inFilters).map Prod.snd).findIdx?
            (fun v => v.column == f.column) with
        | none =>
          rw [List.findIdx?_eq_none_iff] at hidx
          have hcontra := hidx g hg
          rw [hgc] at hcontra
          simp at hcontra
        | some i => rfl
      rw [h1, h2]
      rfl
    · have h1 : ((groupByKeyLast (fun v => v.columnId)
          (changeEntry referenceId current) inFilters).map Prod.snd).findIdx?
          (fun v => v.column == f.column) = none := by
        rw [List.findIdx?_eq_none_iff]
        intro g hg
        rcases Bool.eq_false_or_eq_true (g.column == f.column) with h' | h'
        · exact absurd ((mem_grouped_change_column referenceId current
            inFilters f.column).mp ⟨g, hg, by simpa using h'⟩) hx
        · exact h'
      have h2 : ((inFilters.map fun b => b.columnId).contains f.column)
          = false := by
        rcases Bool.eq_false_or_eq_true ((inFilters.map fun b =>
          b.columnId).contains f.column) with h' | h'
        · exact absurd (by simpa using h') hx
        · exact h'
      rw [h1, h2]
      rfl

theorem foldl_add_map {α : Type} (g : α → Nat) (l : List α) (n : Nat) :
    l.foldl (fun acc x => acc + g x) n = n + (l.map g).sum := by
  induction l generalizing n with
  | nil => simp
  | cons a t ih => simp [ih, Nat.add_assoc]

theorem filtersAreEquals_char (current : List PageFilter)
    (newState : List AppStudioPageFilter)
    (hpos : ∀ b ∈ newState, b.values.length > 0) :
    filtersAreEquals current newState = true ↔
      (current = [] ∧ newState = []) ∨
      (current.length = newState.length ∧
        ∃ f ∈ current, ∀ b ∈ newState,
          ¬ (b.columnId = f.column ∧
            (b.operand ≠ f.operand ∨ b.values ≠ f.values))) := by
  unfold filtersAreEquals
  by_cases hc : current = []
  · subst hc
    by_cases hn : newState = []
    · subst hn
      simp
    · have hlen : newState.length ≠ 0 := by
        simpa [List.length_eq_zero] using hn
      have hsum : newState.foldl (fun acc f => acc + f.values.length) 0 ≠ 0 := by
        rw [foldl_add_map (fun f => f.values.length) newState 0]
        obtain ⟨b, t, rfl⟩ := List.exists_cons_of_ne_nil hn
        have hb := hpos b (List.mem_cons_self b t)
        simp only [List.map_cons, List.sum_cons, Nat.zero_add]
        omega
      simp [hn, hlen, hsum]
  · have hclen : current.length ≠ 0 := by
      simpa [List.length_eq_zero] using hc
    have hb0 : (current.length == 0) = false := by simpa using hclen
    have key : ∀ (c : PageFilter) (b : AppStudioPageFilter),
        ((b.columnId == c.column &&
          (b.operand != c.operand || b.values != c.values)) = false) ↔
          ¬ (b.columnId = c.column ∧
            (b.operand ≠ c.operand ∨ b.values ≠ c.values)) := by
      intro c b
      constructor
      · intro hfalse hcontra
        obtain ⟨h1, h2⟩ := hcontra
        have htrue : (b.columnId == c.column &&
            (b.operand != c.operand || b.values != c.values)) = true := by
          simp only [Bool.and_eq_true, Bool.or_eq_true, beq_iff_eq,
            bne_iff_ne]
          exact ⟨h1, h2⟩
        rw [htrue] at hfalse
        exact absurd hfalse (by simp)
      · intro hn
        rcases Bool.eq_false_or_eq_true (b.columnId == c.column &&
          (b.operand != c.operand || b.values != c.values)) with h' | h'
        · simp only [Bool.and_eq_true, Bool.or_eq_true, beq_iff_eq,
            bne_iff_ne] at h'
          exact absurd h' hn
        · exact h'
    by_cases hl : current.length = newState.length
    · have hb3 : (current.length != newState.length) = false := by
        simpa using hl
      simp only [hb0, Bool.false_and, Bool.false_eq_true, if_neg,
        not_false_iff, hb3]
      rw [List.any_eq_true]
      constructor
      · rintro ⟨f, hf, hfp⟩
        right
        refine ⟨hl, f, hf, ?_⟩
        intro b hb
        have hnone := Option.isNone_iff_eq_none.mp hfp
        rw [List.findIdx?_eq_none_iff] at hnone
        exact (key f b).mp (hnone b hb)
      · rintro (⟨h1, _⟩ | ⟨_, f, hf, hall⟩)
        · exact absurd h1 hc
        · refine ⟨f, hf, ?_⟩
          apply Option.isNone_iff_eq_none.mpr
          rw [List.findIdx?_eq_none_iff]
          intro b hb
          exact (key f b).mpr (hall b hb)
    · have hb3 : (current.length != newState.length) = true := by
        simpa using hl
      simp only [hb0, Bool.false_and, Bool.false_eq_true, if_neg,
        not_false_iff, hb3, if_pos]
      simp [hc, hl]

theorem onPortMessage_filtersChange_eq (referenceId : String)
    (channels : List (String × Channel)) (portNum : Nat)
    (current : List PageFilter) (inFilters : List AppStudioPageFilter)
    (htag : hasAppStudioTag referenceId = true) :
    onPortMessage referenceId channels portNum current
      (filtersChangeEnvelope inFilters) =
      match reconcileFiltersChange referenceId current inFilters with
      | none => ⟨channels, none, false⟩
      | some out => ⟨channels, some (referenceId, out), false⟩ := by
  have h1 : (("/v1/onFiltersChange" : String) == "/v1/onFrameSizeChange")
      = false := by decide
  have h2 : (("/v1/onFiltersChange" : String) == "/v1/onAppReady")
      = false := by decide
  unfold onPortMessage filtersChangeEnvelope
  simp only [h1, h2, beq_self_eq_true, Bool.false_eq_true, if_neg,
    not_false_iff, if_pos, htag]
  rfl

theorem onPortMessage_drill_eq (referenceId : String)
    (channels : List (String × Channel)) (portNum : Nat)
    (current : List PageFilter) (inFilters : List PageFilter)
    (hntag : hasAppStudioTag referenceId = false) :
    onPortMessage referenceId channels portNum current
      (drillEnvelope inFilters) =
      ⟨channels, some (referenceId, reconcileDrill referenceId inFilters),
        false⟩ := by
  have h1 : (("/v1/onDrill" : String) == "/v1/onFrameSizeChange")
      = false := by decide
  have h2 : (("/v1/onDrill" : String) == "/v1/onAppReady") = false := by decide
  have h3 : (("/v1/onDrill" : String) == "/v1/onFiltersChange")
      = false := by decide
  unfold onPortMessage drillEnvelope
  simp only [h1, h2, h3, beq_self_eq_true, Bool.false_eq_true, if_neg,
    not_false_iff, if_pos, hntag]
  rfl

theorem reconcileDrill_eq (referenceId : String) (inFilters : List PageFilter) :
    reconcileDrill referenceId inFilters = specDrillSet referenceId inFilters := by
  unfold reconcileDrill specDrillSet
  rw [groupByKeyLast_values]

theorem drillTransform_column (referenceId : String) (value : PageFilter) :
    (drillTransform referenceId value).column = value.column := rfl

theorem specDrillSet_columns (referenceId : String)
    (inFilters : List PageFilter) :
    (specDrillSet referenceId inFilters).map (fun g => g.column) =
      dedupe (inFilters.map fun v => v.column) := by
  unfold specDrillSet
  rw [List.map_filterMap]
  have hpt : ∀ c ∈ dedupe (inFilters.map fun v => v.column),
      Option.map (fun g => g.column)
        ((inFilters.reverse.find? fun v => v.column == c).map
          (drillTransform referenceId)) = some c := by
    intro c hc
    have hx : c ∈ inFilters.map fun v => v.column := (mem_dedupe _ _).mp hc
    rw [List.mem_map] at hx
    obtain ⟨v, hv, rfl⟩ := hx
    have hsome : (inFilters.reverse.find? fun w => w.column == v.column).isSome := by
      rw [List.find?_isSome]
      exact ⟨v, List.mem_reverse.mpr hv, by simp⟩
    obtain ⟨b, hfind⟩ := Option.isSome_iff_exists.mp hsome
    have hb : b.column = v.column := by
      simpa using List.find?_some hfind
    rw [hfind]
    simp [drillTransform_column, hb]
  rw [List.filterMap_congr hpt]
  exact List.filterMap_some _

theorem reconcileFiltersChange_eq_none_iff (referenceId : String)
    (current : List PageFilter) (inFilters : List AppStudioPageFilter) :
    reconcileFiltersChange referenceId current inFilters = none ↔
      filtersAreEquals current
        (inFilters.filter fun f => f.values.length > 0) = true := by
  unfold reconcileFiltersChange
  by_cases hcond : (filtersAreEquals current
      (inFilters.filter fun f => f.values.length > 0) == true) = true
  · rw [if_pos hcond]
    simpa using hcond
  · rw [if_neg hcond]
    constructor
    · intro h
      exact Option.noConfusion h
    · intro h
      exact absurd (by simpa using h) hcond

/-! Claim theorems. -/

/-- C1 counterexample: with canonical store `[filterA, filterB]` and inbound
batch `[batchA, batchBChanged]` — where column B's values changed from
`["y"]` to `["z"]` — the handler still discards the event (no registry
change, no notification, no exception), although the non-empty-valued subset
of the batch does not equal the store restricted to those columns, so the
claimed iff-condition for discarding is violated. -/
theorem echo_claim_counterexample :
    onPortMessage taggedId [] 0 [filterA, filterB]
      (filtersChangeEnvelope [batchA, batchBChanged]) = ⟨[], none, false⟩ ∧
    ¬ claimEcho [filterA, filterB] [batchA, batchBChanged] := by
  decide

/-- C1 (amended): on a Tagged-class channel, an `onFiltersChange` batch is
discarded — registry unchanged, no downstream notification, no exception —
exactly when the code's echo check holds, namely: the store and the
non-empty-valued subset of the batch are both empty, or they have equal
length and some stored filter has no same-column element of the subset
differing from it in operand or in the exact ordered values.  In particular,
for store `{A: operand=IN, values=[x]}` and batch
`[{columnId:A, operand:IN, values:[x]}]` the event is discarded. -/
theorem filters_change_echo_discard (referenceId : String)
    (channels : List (String × Channel)) (portNum : Nat)
    (current : List PageFilter) (inFilters : List AppStudioPageFilter)
    (htag : hasAppStudioTag referenceId = true) :
    (onPortMessage referenceId channels portNum current
        (filtersChangeEnvelope inFilters) = ⟨channels, none, false⟩ ↔
      ((current = [] ∧
          inFilters.filter (fun f => f.values.length > 0) = []) ∨
        (current.length =
            (inFilters.filter fun f => f.values.length > 0).length ∧
          ∃ f ∈ current,
            ∀ b ∈ inFilters.filter (fun f => f.values.length > 0),
              ¬ (b.columnId = f.column ∧
                (b.operand ≠ f.operand ∨ b.values ≠ f.values))))) ∧
    onPortMessage referenceId channels portNum [filterA]
      (filtersChangeEnvelope [batchA]) = ⟨channels, none, false⟩ := by
  have hpos : ∀ b ∈ inFilters.filter fun f => f.values.length > 0,
      b.values.length > 0 := by
    intro b hb
    have := (List.mem_filter.mp hb).2
    simpa using this
  have hchar := filtersAreEquals_char current
    (inFilters.filter fun f => f.values.length > 0) hpos
  constructor
  · rw [onPortMessage_filtersChange_eq _ _ _ _ _ htag]
    cases hrec : reconcileFiltersChange referenceId current inFilters with
    | none =>
      constructor
      · intro _
        exact hchar.mp
          ((reconcileFiltersChange_eq_none_iff _ _ _).mp hrec)
      · intro _
        rfl
    | some out =>
      constructor
      · intro heq
        exfalso
        simp at heq
      · intro hrhs
        exfalso
        have hnone := (reconcileFiltersChange_eq_none_iff referenceId current
          inFilters).mpr (hchar.mpr hrhs)
        rw [hrec] at hnone
        exact Option.noConfusion hnone
  · rw [onPortMessage_filtersChange_eq _ _ _ _ _ htag]
    have hnone : reconcileFiltersChange referenceId [filterA] [batchA]
        = none :=
      (reconcileFiltersChange_eq_none_iff _ _ _).mpr (by decide)
    rw [hnone]

/-- C1 witness: the amended theorem instantiated on the tagged channel id
with the empty store and empty batch, and the spec's concrete echo-suppression
example. -/
theorem filters_change_echo_discard_witness :
    hasAppStudioTag taggedId = true ∧
    ((onPortMessage taggedId [] 0 [] (filtersChangeEnvelope []) =
        ⟨[], none, false⟩ ↔
      ((([] : List PageFilter) = [] ∧
          ([] : List AppStudioPageFilter).filter
            (fun f => f.values.length > 0) = []) ∨
        (([] : List PageFilter).length =
            (([] : List AppStudioPageFilter).filter
              fun f => f.values.length > 0).length ∧
          ∃ f ∈ ([] : List PageFilter),
            ∀ b ∈ ([] : List AppStudioPageFilter).filter
              (fun f => f.values.length > 0),
              ¬ (b.columnId = f.column ∧
                (b.operand ≠ f.operand ∨ b.values ≠ f.values))))) ∧
    onPortMessage taggedId [] 0 [filterA] (filtersChangeEnvelope [batchA]) =
      ⟨[], none, false⟩) :=
  ⟨by decide, filters_change_echo_discard taggedId [] 0 [] [] (by decide)⟩

/-- C2 counterexample: with store `[filterA]` and batch `[batchA, batchC]`,
where `batchA` equals its counterpart `filterA` on operand and values, the
event is not an echo (`batchC` is new) and the notified working set is
`[filterA, toPageFilter batchC]`: it contains `filterA`, which is neither the
translation of a differing batch element nor an emptied carry-forward, so the
claimed "contains exactly" description is violated. -/
theorem working_set_claim_counterexample :
    reconcileFiltersChange taggedId [filterA] [batchA, batchC] =
      some [filterA, toPageFilter taggedId batchC] ∧
    filterA ∈ [filterA, toPageFilter taggedId batchC] ∧
    ¬ claimWorkingSetMem taggedId [filterA] [batchA, batchC] filterA := by
  decide

/-- C2 (amended): on a Tagged-class channel, an `onFiltersChange` batch that
is not discarded by the echo check produces the notification
`(channelId, W)` where `W` holds, for each distinct batch column in
first-occurrence order, the translation of the last batch element for that
column when it differs from its stored counterpart on operand or exact
ordered values (or has no counterpart) and otherwise the stored counterpart
unchanged, followed by every stored filter whose column the batch does not
mention, carried forward with `values` emptied. -/
theorem filters_change_working_set (referenceId : String)
    (channels : List (String × Channel)) (portNum : Nat)
    (current : List PageFilter) (inFilters : List AppStudioPageFilter)
    (htag : hasAppStudioTag referenceId = true)
    (hne : filtersAreEquals current
      (inFilters.filter fun f => f.values.length > 0) = false) :
    onPortMessage referenceId channels portNum current
      (filtersChangeEnvelope inFilters) =
      ⟨channels,
        some (referenceId, specWorkingSet referenceId current inFilters),
        false⟩ := by
  rw [onPortMessage_filtersChange_eq _ _ _ _ _ htag,
    reconcileFiltersChange_eq _ _ _ hne]

/-- C2 witness: the amended theorem instantiated on the spec's implicit-clear
scenario — store on columns A and B, batch mentioning only column B with
changed values. -/
theorem filters_change_working_set_witness :
    hasAppStudioTag taggedId = true ∧
    filtersAreEquals [filterA, filterB]
      ([batchBChanged].filter fun f => f.values.length > 0) = false ∧
    onPortMessage taggedId [] 0 [filterA, filterB]
      (filtersChangeEnvelope [batchBChanged]) =
      ⟨[],
        some (taggedId,
          specWorkingSet taggedId [filterA, filterB] [batchBChanged]),
        false⟩ :=
  ⟨by decide, by decide,
    filters_change_working_set taggedId [] 0 [filterA, filterB]
      [batchBChanged] (by decide) (by decide)⟩

/-- C3: an `onDrill` batch on a Standard (non-Tagged) channel notifies
downstream observers with `(channelId, R)` where `R` has exactly one filter
per distinct column of the batch (its column list is the first-occurrence
deduplication of the batch's columns, without duplicates), each taken from
the last occurrence of that column in batch order, and every filter of `R`
has operand `IN` and `source` equal to the channel id. -/
theorem drill_reconciliation_spec (referenceId : String)
    (channels : List (String × Channel)) (portNum : Nat)
    (current : List PageFilter) (inFilters : List PageFilter)
    (hntag : hasAppStudioTag referenceId = false) :
    onPortMessage referenceId channels portNum current
      (drillEnvelope inFilters) =
      ⟨channels, some (referenceId, specDrillSet referenceId inFilters),
        false⟩ ∧
    (specDrillSet referenceId inFilters).map (fun g => g.column) =
      dedupe (inFilters.map fun v => v.column) ∧
    ((specDrillSet referenceId inFilters).map fun g => g.column).Nodup ∧
    ∀ g ∈ specDrillSet referenceId inFilters,
      g.operand = PageFilterOperator.In ∧ g.source = some referenceId := by
  refine ⟨?_, specDrillSet_columns _ _, ?_, ?_⟩
  · rw [onPortMessage_drill_eq _ _ _ _ _ hntag, reconcileDrill_eq]
  · rw [specDrillSet_columns]
    exact dedupe_nodup _
  · intro g hg
    unfold specDrillSet at hg
    rw [List.mem_filterMap] at hg
    obtain ⟨c, _, hsome⟩ := hg
    rw [Option.map_eq_some'] at hsome
    obtain ⟨b, _, rfl⟩ := hsome
    unfold drillTransform
    refine ⟨rfl, ?_⟩
    simp [hntag]

/-- C3 witness: the theorem instantiated on a standard channel with the
spec's end-to-end drill example (operand `EQUALS` forced to `IN`). -/
theorem drill_reconciliation_spec_witness :
    hasAppStudioTag "chan-7" = false ∧
    (onPortMessage "chan-7" [] 0 [] (drillEnvelope [drillRegion]) =
      ⟨[], some ("chan-7", specDrillSet "chan-7" [drillRegion]), false⟩ ∧
    (specDrillSet "chan-7" [drillRegion]).map (fun g => g.column) =
      dedupe ([drillRegion].map fun v => v.column) ∧
    ((specDrillSet "chan-7" [drillRegion]).map fun g => g.column).Nodup ∧
    ∀ g ∈ specDrillSet "chan-7" [drillRegion],
      g.operand = PageFilterOperator.In ∧ g.source = some "chan-7") :=
  ⟨by decide, drill_reconciliation_spec "chan-7" [] 0 [] [drillRegion]
    (by decide)⟩

/-- C4: in every broadcast cycle, every registered channel is posted an
envelope with method `/v1/filters/apply` whose filters are exactly the
current Filter Store contents minus those filters whose `source` equals that
channel's id: a filter is in the payload sent to the channel iff it is in the
store and its `source` is not that channel's id (filters with a different or
absent source are included). -/
theorem broadcast_source_exclusion (currentFilters : List PageFilter)
    (channels : List (String × Channel)) (ch : Channel)
    (hch : ch ∈ channels.map Prod.snd) :
    (ch.id, broadcastEnvelope currentFilters ch.id) ∈
      broadcastCycle currentFilters channels ∧
    (broadcastEnvelope currentFilters ch.id).method = "/v1/filters/apply" ∧
    ∀ f, f ∈ (broadcastEnvelope currentFilters ch.id).filters ↔
      f ∈ currentFilters ∧ f.source ≠ some ch.id := by
  refine ⟨?_, rfl, ?_⟩
  · unfold broadcastCycle
    rw [List.mem_map]
    rw [List.mem_map] at hch
    obtain ⟨p, hp, hpe⟩ := hch
    exact ⟨p, hp, by rw [hpe]⟩
  · intro f
    unfold broadcastEnvelope broadcastPayload
    rw [List.mem_filter]
    constructor
    · rintro ⟨hf, hs⟩
      exact ⟨hf, by simpa using hs⟩
    · rintro ⟨hf, hs⟩
      exact ⟨hf, by simpa using hs⟩

/-- C4 witness: the theorem instantiated on channel `chan-7` with a store
holding one filter sourced to `chan-7` (excluded from its payload) and one
unsourced filter (included). -/
theorem broadcast_source_exclusion_witness :
    chan7 ∈ [("chan-7", chan7)].map Prod.snd ∧
    ((chan7.id, broadcastEnvelope [filterA, filterB] chan7.id) ∈
      broadcastCycle [filterA, filterB] [("chan-7", chan7)] ∧
    (broadcastEnvelope [filterA, filterB] chan7.id).method =
      "/v1/filters/apply" ∧
    ∀ f, f ∈ (broadcastEnvelope [filterA, filterB] chan7.id).filters ↔
      f ∈ [filterA, filterB] ∧ f.source ≠ some chan7.id) :=
  ⟨by decide,
    broadcast_source_exclusion [filterA, filterB] [("chan-7", chan7)] chan7
      (by decide)⟩

/-- C8: a Tagged-only `onFiltersChange` envelope arriving on a Standard
channel, or an `onDrill` envelope arriving on a Tagged channel, is ignored
entirely regardless of its params: the registry is unchanged, no downstream
notification is issued, and no exception escapes (so no error reaches the
sender and the channel is not torn down). -/
theorem wrong_class_event_ignored (referenceId : String)
    (channels : List (String × Channel)) (portNum : Nat)
    (current : List PageFilter) (pars : Option MessageParams) :
    (hasAppStudioTag referenceId = false →
      onPortMessage referenceId channels portNum current
        ⟨some "/v1/onFiltersChange", pars⟩ = ⟨channels, none, false⟩) ∧
    (hasAppStudioTag referenceId = true →
      onPortMessage referenceId channels portNum current
        ⟨some "/v1/onDrill", pars⟩ = ⟨channels, none, false⟩) := by
  constructor
  · intro hntag
    unfold onPortMessage
    simp [hntag]
  · intro htag
    unfold onPortMessage
    simp [htag]

/-- C8 witness: a well-formed filters-change batch on the standard channel
`chan-7` and a well-formed drill batch on the tagged channel are both
ignored. -/
theorem wrong_class_event_ignored_witness :
    onPortMessage "chan-7" [] 0 []
      ⟨some "/v1/onFiltersChange",
        some ⟨some (.appStudio [batchA])⟩⟩ = ⟨[], none, false⟩ ∧
    onPortMessage taggedId [] 0 []
      ⟨some "/v1/onDrill", some ⟨some (.drill [drillRegion])⟩⟩ =
      ⟨[], none, false⟩ :=
  ⟨(wrong_class_event_ignored "chan-7" [] 0 []
      (some ⟨some (.appStudio [batchA])⟩)).1 (by decide),
    (wrong_class_event_ignored taggedId [] 0 []
      (some ⟨some (.drill [drillRegion])⟩)).2 (by decide)⟩

/-- C9 counterexample: an `onFiltersChange` envelope with `params` absent on
a Tagged channel, and an `onDrill` envelope with `params` absent on a
Standard channel, make the handler abort with an uncaught TypeError while
reading `params['filters']` (`threw = true`), rather than detect the
malformed payload and return. -/
theorem malformed_params_counterexample :
    onPortMessage taggedId [] 0 [filterA]
      { method := some "/v1/onFiltersChange", params := none } =
      ⟨[], none, true⟩ ∧
    onPortMessage "chan-7" [] 0 [filterA]
      { method := some "/v1/onDrill", params := none } =
      ⟨[], none, true⟩ := by
  decide

/-- C9 (amended): for `onFiltersChange` and `onDrill` envelopes whose
`params.filters` is missing or not an array but whose `params` object is
present, the handler detects this and returns without registry change,
notification, or exception; when `params` itself is absent, the class guard
still ignores wrong-class events, but on the accepting class the handler
aborts with an uncaught TypeError — in every case the registry is unchanged,
no notification is issued and nothing is sent back to the sender. -/
theorem malformed_payload_handling (referenceId : String)
    (channels : List (String × Channel)) (portNum : Nat)
    (current : List PageFilter) :
    (onPortMessage referenceId channels portNum current
      ⟨some "/v1/onFiltersChange", some ⟨none⟩⟩ = ⟨channels, none, false⟩) ∧
    (onPortMessage referenceId channels portNum current
      ⟨some "/v1/onFiltersChange", some ⟨some .notArray⟩⟩ =
      ⟨channels, none, false⟩) ∧
    (onPortMessage referenceId channels portNum current
      ⟨some "/v1/onFiltersChange", none⟩ =
      ⟨channels, none, hasAppStudioTag referenceId⟩) ∧
    (onPortMessage referenceId channels portNum current
      ⟨some "/v1/onDrill", some ⟨none⟩⟩ = ⟨channels, none, false⟩) ∧
    (onPortMessage referenceId channels portNum current
      ⟨some "/v1/onDrill", some ⟨some .notArray⟩⟩ =
      ⟨channels, none, false⟩) ∧
    (onPortMessage referenceId channels portNum current
      ⟨some "/v1/onDrill", none⟩ =
      ⟨channels, none, !hasAppStudioTag referenceId⟩) := by
  rcases Bool.eq_false_or_eq_true (hasAppStudioTag referenceId) with
    htag | htag <;>
    refine ⟨?_, ?_, ?_, ?_, ?_, ?_⟩ <;>
    unfold onPortMessage <;>
    simp [htag]

/-- C10: a window connection event carrying no transferred port is ignored
by the accept handler: no channel id and port are retained, no message
handler is attached, no transport is started, and the engine state (registry
and store) is unchanged. -/
theorem portless_connection_ignored (channels : List (String × Channel))
    (referenceId : String) (st : EngineState)
    (merge : List PageFilter → List PageFilter → List PageFilter) :
    handleConnection channels referenceId none = ⟨channels, none⟩ ∧
    stepWith merge st (.connect referenceId none) = st := by
  exact ⟨rfl, rfl⟩

/-! Lemmas about the two merge-policy variants of the `setFilters` reducer. -/

theorem updateValuesFirst_columns (filters : List PageFilter) (column : String)
    (vals : List String) :
    (updateValuesFirst filters column vals).map (fun f => f.column) =
      filters.map fun f => f.column := by
  induction filters with
  | nil => rfl
  | cons f rest ih =>
    unfold updateValuesFirst
    by_cases hf : f.column == column
    · rw [if_pos hf]
      rfl
    · rw [if_neg hf, List.map_cons, List.map_cons, ih]

theorem updateValuesFirst_values (filters : List PageFilter) (column : String)
    (vals : List String) (h : ∀ f ∈ filters, f.values ≠ [])
    (hv : vals ≠ []) :
    ∀ g ∈ updateValuesFirst filters column vals, g.values ≠ [] := by
  induction filters with
  | nil => intro g hg; cases hg
  | cons f rest ih =>
    intro g hg
    unfold updateValuesFirst at hg
    by_cases hf : f.column == column
    · rw [if_pos hf] at hg
      rcases List.mem_cons.mp hg with rfl | hg
      · exact hv
      · exact h g (List.mem_cons_of_mem _ hg)
    · rw [if_neg hf] at hg
      rcases List.mem_cons.mp hg with rfl | hg
      · exact h g (List.mem_cons_self _ _)
      · exact ih (fun f' hf' => h f' (List.mem_cons_of_mem _ hf')) g hg

theorem mem_updateValuesFirst_ne (filters : List PageFilter) (column : String)
    (vals : List String) (g : PageFilter)
    (hg : g ∈ updateValuesFirst filters column vals)
    (hne : g.column ≠ column) : g ∈ filters := by
  induction filters with
  | nil => cases hg
  | cons f rest ih =>
    unfold updateValuesFirst at hg
    by_cases hf : f.column == column
    · rw [if_pos hf] at hg
      rcases List.mem_cons.mp hg with rfl | hg
      · exact absurd (by simpa using hf) hne
      · exact List.mem_cons_of_mem _ hg
    · rw [if_neg hf] at hg
      rcases List.mem_cons.mp hg with rfl | hg
      · exact List.mem_cons_self _ _
      · exact List.mem_cons_of_mem _ (ih hg)

theorem storeInvariant_filter (filters : List PageFilter) (p : PageFilter → Bool)
    (h : storeInvariant filters) : storeInvariant (filters.filter p) := by
  obtain ⟨hnd, hvals⟩ := h
  constructor
  · exact List.Nodup.sublist
      (List.Sublist.map _ (List.filter_sublist filters)) hnd
  · intro f hf
    exact hvals f (List.mem_of_mem_filter hf)

theorem dedupe_ne_nil (l : List String) (h : l ≠ []) : dedupe l ≠ [] := by
  obtain ⟨x, t, rfl⟩ := List.exists_cons_of_ne_nil h
  exact List.ne_nil_of_mem ((mem_dedupe _ _).mpr (List.mem_cons_self x t))

theorem find?_column_none (filters : List PageFilter) (nf : PageFilter)
    (h : (filters.find? fun f => f.column == nf.column) = none) :
    ∀ f ∈ filters, f.column ≠ nf.column := by
  intro f hf heq
  exact List.find?_eq_none.mp h f hf (by simp [heq])

theorem append_new_invariant (filters : List PageFilter) (nf : PageFilter)
    (hinv : storeInvariant filters) (hnf : nf.values ≠ [])
    (hno : ∀ f ∈ filters, f.column ≠ nf.column) :
    storeInvariant (filters ++ [nf]) := by
  obtain ⟨hnd, hvals⟩ := hinv
  constructor
  · rw [List.map_append]
    rw [List.nodup_append]
    refine ⟨hnd, by simp, ?_⟩
    intro x hx hx'
    rw [List.mem_map] at hx
    obtain ⟨f, hf, rfl⟩ := hx
    simp only [List.map_cons, List.map_nil, List.mem_singleton] at hx'
    exact hno f hf hx'
  · intro g hg
    rcases List.mem_append.mp hg with hg | hg
    · exact hvals g hg
    · rw [List.mem_singleton] at hg
      exact hg ▸ hnf

theorem toggleStep_invariant (st : List PageFilter) (nf : PageFilter)
    (hinv : storeInvariant st) (hnf : nf.values ≠ []) :
    storeInvariant (toggleStep st nf) := by
  unfold toggleStep
  cases hfind : st.find? fun f => f.column == nf.column with
  | none => exact append_new_invariant st nf hinv hnf (find?_column_none st nf hfind)
  | some ex =>
    obtain ⟨hnd, hvals⟩ := hinv
    dsimp only
    by_cases hlen : (toggleValues ex.values nf.values).length == 0
    · rw [if_pos hlen]
      constructor
      · apply List.Nodup.sublist (List.Sublist.map _ (List.filter_sublist _))
        rw [updateValuesFirst_columns]
        exact hnd
      · intro g hg
        rw [List.mem_filter] at hg
        obtain ⟨hg', hp⟩ := hg
        have hc : g.column ≠ nf.column := by simpa using hp
        exact hvals g (mem_updateValuesFirst_ne st nf.column _ g hg' hc)
    · rw [if_neg hlen]
      constructor
      · rw [updateValuesFirst_columns]
        exact hnd
      · exact updateValuesFirst_values st nf.column _ hvals
          (by simpa [List.length_eq_zero] using hlen)

theorem unionStep_invariant (st : List PageFilter) (nf : PageFilter)
    (hinv : storeInvariant st) (hnf : nf.values ≠ []) :
    storeInvariant (unionStep st nf) := by
  unfold unionStep
  cases hfind : st.find? fun f => f.column == nf.column with
  | none => exact append_new_invariant st nf hinv hnf (find?_column_none st nf hfind)
  | some ex =>
    obtain ⟨hnd, hvals⟩ := hinv
    dsimp only
    constructor
    · rw [updateValuesFirst_columns]
      exact hnd
    · apply updateValuesFirst_values st nf.column _ hvals
      apply dedupe_ne_nil
      intro hcontra
      rw [List.append_eq_nil] at hcontra
      exact hnf hcontra.2

theorem foldl_step_invariant
    (step : List PageFilter → PageFilter → List PageFilter)
    (hstep : ∀ st nf, storeInvariant st → nf.values ≠ [] →
      storeInvariant (step st nf))
    (payload : List PageFilter) (st : List PageFilter)
    (hinv : storeInvariant st) (hvals : ∀ f ∈ payload, f.values ≠ []) :
    storeInvariant (payload.foldl step st) := by
  induction payload generalizing st with
  | nil => simpa
  | cons nf rest ih =>
    rw [List.foldl_cons]
    exact ih (step st nf)
      (hstep st nf hinv (hvals nf (List.mem_cons_self _ _)))
      (fun f hf => hvals f (List.mem_cons_of_mem _ hf))

theorem updateValuesFirst_append_no_match (l1 l2 : List PageFilter)
    (column : String) (vals : List String)
    (hno : ∀ f ∈ l1, f.column ≠ column) :
    updateValuesFirst (l1 ++ l2) column vals =
      l1 ++ updateValuesFirst l2 column vals := by
  induction l1 with
  | nil => rfl
  | cons f rest ih =>
    have hb : (f.column == column) = false :=
      beq_eq_false_iff_ne.mpr (hno f (List.mem_cons_self _ _))
    rw [List.cons_append]
    have hdef : updateValuesFirst (f :: (rest ++ l2)) column vals =
        if (f.column == column) = true then
          { f with values := vals } :: (rest ++ l2)
        else f :: updateValuesFirst (rest ++ l2) column vals := rfl
    rw [hdef, if_neg (by rw [hb]; exact Bool.false_ne_true),
      ih fun f' hf' => hno f' (List.mem_cons_of_mem _ hf'), List.cons_append]

/-- C6 counterexample: both merge-policy variants insert a payload filter
whose `values` is empty when its column is not yet present — starting from
the empty store (which satisfies the invariant), both produce a store holding
a filter with empty `values`, violating the invariant. -/
theorem merge_empty_values_counterexample :
    storeInvariant [] ∧
    setFiltersToggle [] [emptyValuesFilter] false = [emptyValuesFilter] ∧
    setFiltersUnion [] [emptyValuesFilter] = [emptyValuesFilter] ∧
    ¬ storeInvariant [emptyValuesFilter] := by
  decide

/-- C6 (amended): both merge-policy variants of `setFilters` preserve the
Filter Store invariant — at most one filter per distinct column, no filter
with empty `values` present — provided every payload filter carries a
non-empty `values` sequence (toggle-merge deletes a column whose toggled
values empty out; union-merge never shrinks values). -/
theorem setFilters_preserves_invariant (stateFilters payload : List PageFilter)
    (forceNew : Bool) (hinv : storeInvariant stateFilters)
    (hvals : ∀ f ∈ payload, f.values ≠ []) :
    storeInvariant (setFiltersToggle stateFilters payload forceNew) ∧
    storeInvariant (setFiltersUnion stateFilters payload) := by
  constructor
  · unfold setFiltersToggle
    apply foldl_step_invariant toggleStep toggleStep_invariant payload _ _ hvals
    by_cases hf : (forceNew == true) = true
    · rw [if_pos hf]
      exact storeInvariant_filter _ _ hinv
    · rw [if_neg hf]
      exact hinv
  · exact foldl_step_invariant unionStep unionStep_invariant payload
      stateFilters hinv hvals

/-- C6 witness: the amended theorem instantiated on the store `[filterA]`
and the non-empty-valued payload `[filterB]` with `forceNew` set. -/
theorem setFilters_preserves_invariant_witness :
    storeInvariant [filterA] ∧ (∀ f ∈ [filterB], f.values ≠ []) ∧
    (storeInvariant (setFiltersToggle [filterA] [filterB] true) ∧
      storeInvariant (setFiltersUnion [filterA] [filterB])) :=
  ⟨by decide, by decide,
    setFilters_preserves_invariant [filterA] [filterB] true (by decide)
      (by decide)⟩

/-- C7: starting from a store with no filter on the payload's column,
applying the toggle-merge `setFilters` twice with the same single filter
`(column, values=[x])` returns the store to its original state: the first
application appends the filter, the identical second application toggles the
value out and deletes the emptied column, leaving all other filters
untouched. -/
theorem toggle_merge_idempotent_pair (stateFilters : List PageFilter)
    (nf : PageFilter) (x : String)
    (hno : ∀ f ∈ stateFilters, f.column ≠ nf.column)
    (hx : nf.values = [x]) :
    setFiltersToggle (setFiltersToggle stateFilters [nf] false) [nf] false =
      stateFilters := by
  have hfind1 : stateFilters.find? (fun f => f.column == nf.column) = none :=
    List.find?_eq_none.mpr fun f hf => by
      rw [beq_eq_false_iff_ne.mpr (hno f hf)]
      exact Bool.false_ne_true
  have h1 : setFiltersToggle stateFilters [nf] false = stateFilters ++ [nf] := by
    unfold setFiltersToggle
    rw [if_neg (by simp), List.foldl_cons, List.foldl_nil]
    unfold toggleStep
    rw [hfind1]
  rw [h1]
  unfold setFiltersToggle
  rw [if_neg (by simp), List.foldl_cons, List.foldl_nil]
  unfold toggleStep
  have hfind2 : ((stateFilters ++ [nf]).find? fun f => f.column == nf.column)
      = some nf := by
    rw [List.find?_append, hfind1]
    simp [List.find?_cons]
  rw [hfind2]
  dsimp only
  have htog : toggleValues nf.values nf.values = [] := by
    rw [hx]
    unfold toggleValues
    rw [List.foldl_cons, List.foldl_nil]
    rw [if_pos (by simp), List.erase_cons_head]
  rw [htog]
  rw [if_pos (show (([] : List String).length == 0) = true by rfl)]
  rw [updateValuesFirst_append_no_match stateFilters [nf] nf.column [] hno]
  have hupd : updateValuesFirst [nf] nf.column [] =
      [{ nf with values := [] }] := by
    unfold updateValuesFirst
    rw [if_pos (by simp)]
  rw [hupd, List.filter_append]
  have hl : stateFilters.filter (fun f => f.column != nf.column)
      = stateFilters :=
    List.filter_eq_self.mpr fun f hf => by simp [hno f hf]
  have hr : ([{ nf with values := [] }] : List PageFilter).filter
      (fun f => f.column != nf.column) = [] := by
    simp
  rw [hl, hr, List.append_nil]

/-- C7 witness: the theorem instantiated on store `[filterB]` and the filter
`filterA` (column A, values `["x"]`): two successive toggle-merges restore
`[filterB]`. -/
theorem toggle_merge_idempotent_pair_witness :
    (∀ f ∈ [filterB], f.column ≠ filterA.column) ∧
    filterA.values = ["x"] ∧
    setFiltersToggle (setFiltersToggle [filterB] [filterA] false) [filterA]
      false = [filterB] :=
  ⟨by decide, by decide,
    toggle_merge_idempotent_pair [filterB] filterA "x" (by decide) (by decide)⟩

/-! Registry dynamics along engine traces. -/

theorem onPortMessage_channels (referenceId : String)
    (channels : List (String × Channel)) (portNum : Nat)
    (current : List PageFilter) (data : InboundEnvelope) :
    (onPortMessage referenceId channels portNum current data).channels
      = channels ∨
    (data.method = some "/v1/onAppReady" ∧
      (onPortMessage referenceId channels portNum current data).channels =
        registerChannel channels referenceId portNum) := by
  obtain ⟨m, pars⟩ := data
  unfold onPortMessage
  cases m with
  | none => exact Or.inl rfl
  | some s =>
    dsimp only
    by_cases h1 : (s == "/v1/onFrameSizeChange") = true
    · rw [if_pos h1]
      exact Or.inl rfl
    · rw [if_neg h1]
      by_cases h2 : (s == "/v1/onAppReady") = true
      · rw [if_pos h2]
        refine Or.inr ⟨?_, rfl⟩
        have hs : s = "/v1/onAppReady" := by simpa using h2
        rw [hs]
      · rw [if_neg h2]
        left
        by_cases h3 : (s == "/v1/onFiltersChange") = true
        · rw [if_pos h3]
          by_cases h4 : (hasAppStudioTag referenceId == false) = true
          · rw [if_pos h4]
          · rw [if_neg h4]
            cases pars with
            | none => rfl
            | some p =>
              obtain ⟨ff⟩ := p
              cases ff with
              | none => rfl
              | some fv =>
                cases fv with
                | appStudio l =>
                  dsimp only
                  cases reconcileFiltersChange referenceId current l with
                  | none => rfl
                  | some out => rfl
                | drill l => rfl
                | notArray => rfl
        · rw [if_neg h3]
          by_cases h5 : (s == "/v1/onDrill") = true
          · rw [if_pos h5]
            by_cases h6 : (hasAppStudioTag referenceId == true) = true
            · rw [if_pos h6]
            · rw [if_neg h6]
              cases pars with
              | none => rfl
              | some p =>
                obtain ⟨ff⟩ := p
                cases ff with
                | none => rfl
                | some fv =>
                  cases fv with
                  | appStudio l => rfl
                  | drill l => rfl
                  | notArray => rfl
          · rw [if_neg h5]

theorem mem_registerChannel_keys (channels : List (String × Channel))
    (referenceId : String) (portNum : Nat) (x : String)
    (h : x ∈ (registerChannel channels referenceId portNum).map Prod.fst) :
    x ∈ channels.map Prod.fst ∨ x = referenceId := by
  unfold registerChannel at h
  rw [objSet_keys] at h
  by_cases hc : (channels.map Prod.fst).contains referenceId
  · rw [if_pos hc] at h
    exact Or.inl h
  · rw [if_neg hc] at h
    rcases List.mem_append.mp h with h | h
    · exact Or.inl h
    · exact Or.inr (by simpa using h)

theorem registerChannel_coherent (channels : List (String × Channel))
    (referenceId : String) (portNum : Nat) (h : registryCoherent channels) :
    registryCoherent (registerChannel channels referenceId portNum) := by
  intro p hp
  rcases mem_objSet p channels referenceId _ hp with hp' | rfl
  · exact h p hp'
  · rfl

theorem stepWith_portMessage_channels
    (merge : List PageFilter → List PageFilter → List PageFilter)
    (st : EngineState) (referenceId : String) (portNum : Nat)
    (data : InboundEnvelope) :
    (stepWith merge st (.portMessage referenceId portNum data)).channels =
      (onPortMessage referenceId st.channels portNum st.currentFilters
        data).channels := by
  unfold stepWith
  dsimp only
  cases (onPortMessage referenceId st.channels portNum st.currentFilters
    data).notification with
  | none => rfl
  | some p =>
    obtain ⟨a, b⟩ := p
    rfl

theorem runFrom_tagged_mem
    (merge : List PageFilter → List PageFilter → List PageFilter)
    (events : List EngineEvent) :
    ∀ (st : EngineState) (referenceId : String),
    hasAppStudioTag referenceId = true →
    referenceId ∈ ((events.foldl (stepWith merge) st).channels.map Prod.fst) →
    referenceId ∈ st.channels.map Prod.fst ∨
      sentAppReady referenceId events := by
  induction events with
  | nil =>
    intro st referenceId _ h
    exact Or.inl h
  | cons e evs ih =>
    intro st referenceId htag h
    rw [List.foldl_cons] at h
    rcases ih (stepWith merge st e) referenceId htag h with h' | h'
    · cases e with
      | connect rid' p0 =>
        cases p0 with
        | none => exact Or.inl h'
        | some p =>
          have hch : (stepWith merge st (.connect rid' (some p))).channels =
              if hasAppStudioTag rid' == false then
                registerChannel st.channels rid' p
              else st.channels := rfl
          rw [hch] at h'
          by_cases htag' : (hasAppStudioTag rid' == false) = true
          · rw [if_pos htag'] at h'
            rcases mem_registerChannel_keys st.channels rid' p referenceId h'
              with h'' | rfl
            · exact Or.inl h''
            · rw [htag] at htag'
              exact absurd htag' (by simp)
          · rw [if_neg htag'] at h'
            exact Or.inl h'
      | portMessage rid' portNum d =>
        rw [stepWith_portMessage_channels] at h'
        rcases onPortMessage_channels rid' st.channels portNum
          st.currentFilters d with hc | ⟨hm, hc⟩
        · rw [hc] at h'
          exact Or.inl h'
        · rw [hc] at h'
          rcases mem_registerChannel_keys st.channels rid' portNum referenceId
            h' with h'' | rfl
          · exact Or.inl h''
          · exact Or.inr ⟨portNum, d, List.mem_cons_self _ _, hm⟩
    · refine Or.inr ?_
      obtain ⟨portNum, d, hmem, hm⟩ := h'
      exact ⟨portNum, d, List.mem_cons_of_mem _ hmem, hm⟩

theorem runFrom_coherent
    (merge : List PageFilter → List PageFilter → List PageFilter)
    (events : List EngineEvent) :
    ∀ (st : EngineState), registryCoherent st.channels →
    registryCoherent ((events.foldl (stepWith merge) st).channels) := by
  induction events with
  | nil =>
    intro st h
    exact h
  | cons e evs ih =>
    intro st h
    rw [List.foldl_cons]
    apply ih
    cases e with
    | connect rid' p0 =>
      cases p0 with
      | none => exact h
      | some p =>
        have hch : (stepWith merge st (.connect rid' (some p))).channels =
            if hasAppStudioTag rid' == false then
              registerChannel st.channels rid' p
            else st.channels := rfl
        rw [hch]
        by_cases htag' : (hasAppStudioTag rid' == false) = true
        · rw [if_pos htag']
          exact registerChannel_coherent st.channels rid' p h
        · rw [if_neg htag']
          exact h
    | portMessage rid' portNum d =>
      rw [stepWith_portMessage_channels]
      rcases onPortMessage_channels rid' st.channels portNum
        st.currentFilters d with hc | ⟨_, hc⟩
      · rw [hc]
        exact h
      · rw [hc]
        exact registerChannel_coherent st.channels rid' portNum h

/-- C5: in every state reachable by a trace of connection and port-message
events (under any downstream merge policy), a Tagged-class channel id is in
the Channel Registry only if an `/v1/onAppReady` envelope was handled on that
channel's port during the trace — connection acceptance registers only
non-Tagged channels; consequently a Tagged-class channel that never sent
`/v1/onAppReady` receives no broadcast in that state's broadcast cycle. -/
theorem tagged_registration_gating
    (merge : List PageFilter → List PageFilter → List PageFilter)
    (events : List EngineEvent) (referenceId : String)
    (htag : hasAppStudioTag referenceId = true) :
    (referenceId ∈ (runWith merge events).channels.map Prod.fst →
      sentAppReady referenceId events) ∧
    (¬ sentAppReady referenceId events →
      ∀ p ∈ broadcastCycle (runWith merge events).currentFilters
        (runWith merge events).channels, p.1 ≠ referenceId) := by
  have hmem := runFrom_tagged_mem merge events initialState referenceId htag
  constructor
  · intro h
    rcases hmem h with h' | h'
    · cases h'
    · exact h'
  · intro hns p hp heq
    unfold broadcastCycle at hp
    rw [List.mem_map] at hp
    obtain ⟨q, hq, rfl⟩ := hp
    have hco := runFrom_coherent merge events initialState
      (fun p hp => absurd hp (List.not_mem_nil p))
    have hqc : q.2.id = q.1 := hco q hq
    have hkeys : referenceId ∈ (runWith merge events).channels.map
        Prod.fst := by
      rw [← heq, hqc]
      exact List.mem_map_of_mem Prod.fst hq
    rcases hmem hkeys with h' | h'
    · cases h'
    · exact hns h'

/-- C5 witness: a Tagged channel that merely connected (no `onAppReady`)
under the union-merge policy: the theorem applies, so it is absent from the
registry and from broadcast recipients. -/
theorem tagged_registration_gating_witness :
    hasAppStudioTag taggedId = true ∧
    ((taggedId ∈ (runWith setFiltersUnion
        [.connect taggedId (some 0)]).channels.map Prod.fst →
      sentAppReady taggedId [.connect taggedId (some 0)]) ∧
    (¬ sentAppReady taggedId [.connect taggedId (some 0)] →
      ∀ p ∈ broadcastCycle
        (runWith setFiltersUnion [.connect taggedId (some 0)]).currentFilters
        (runWith setFiltersUnion [.connect taggedId (some 0)]).channels,
        p.1 ≠ taggedId)) :=
  ⟨by decide,
    tagged_registration_gating setFiltersUnion [.connect taggedId (some 0)]
      taggedId (by decide)⟩

end JSAPI
